import Mathlib

/-!
Shallow embedding of `symbolic_pofk/linear_plus.py` over the real numbers.

Every numpy operation in the source is elementwise arithmetic on floats;
we embed scalars as `ℝ` and arrays of wavenumbers as `List ℝ`, with the
array-valued functions realised as `List.map` of their scalar bodies.
Python float exponentiation with a float exponent becomes `Real.rpow`
(written `x ^ y` with a real exponent); integer exponents stay `npow` or
`zpow`.  Local variables of the source appear as top-level helper
definitions named after the corresponding source locals, so that theorems
can speak about them.

For the claim about NaN propagation we additionally embed `Astosigma8`
over an IEEE-style value domain `FVal` (finite / +inf / -inf / NaN) whose
operations follow the IEEE 754 special-value rules that numpy implements.
-/

namespace SymbolicPofk

noncomputable section

/-! ### Astosigma8 and sigma8toAs (source lines 4-71)

The source duplicates one fitting formula verbatim in both conversion
functions (locals `term1` .. `term4` and `result`); we render the shared
formula once as `sigma8_term1` .. `sigma8_result`. -/

def sigma8_term1 (Om Ob w0 wa : ℝ) : ℝ :=
  0.0187 * (-Ob * 2.4891 + Om * 12.9495 +
    Real.log (-0.7527 * w0 + Real.log (-2.3685 * w0 - 1.5062 * wa)))

def sigma8_term2 (Om ns mnu wa : ℝ) : ℝ :=
  Om * 1.3057 + 0.0885 * mnu + 0.1471 * ns - Real.log (Om * 3.4982 - 0.006 * wa)

def sigma8_term3 (Om Ob ns : ℝ) : ℝ :=
  Ob * 19.2779 - Om * 11.1463 - ns

def sigma8_term4 (Om h ns mnu : ℝ) : ℝ :=
  -Om * 1.5433 - 7.0578 * h + 2.0564 * mnu + ns

def sigma8_result (Om Ob h ns mnu w0 wa : ℝ) : ℝ :=
  sigma8_term1 Om Ob w0 wa * sigma8_term2 Om ns mnu wa *
    sigma8_term3 Om Ob ns * sigma8_term4 Om h ns mnu

def Astosigma8 (As Om Ob h ns mnu w0 wa : ℝ) : ℝ :=
  sigma8_result Om Ob h ns mnu w0 wa * Real.sqrt As

def sigma8toAs (sigma8 Om Ob h ns mnu w0 wa : ℝ) : ℝ :=
  (sigma8 / sigma8_result Om Ob h ns mnu w0 wa) ^ 2

/-! ### R, the growth-factor correction (source lines 75-106) -/

def R_denominator_inner1 (Om w0 wa a : ℝ) : ℝ :=
  a * 0.394 + 0.7294 + (Om * 0.5347 - a * 0.4662) * Real.log (-4.6669 * w0 - 0.4136 * wa)

def R_numerator_inner2 (Om w0 wa a : ℝ) : ℝ :=
  Om * 1.4769 - a * 0.5959 + Real.log (-0.4553 * w0 - 0.0799 * wa)

def R_denominator_inner2 (Om w0 wa a : ℝ) : ℝ :=
  -a * 5.8311 + 5.8014 +
    6.7085 * (Om * 0.3445 + a * 1.2498 - 1) * (0.3756 * w0 + 0.2136 * wa + 1)

def R (As Om Ob h ns mnu w0 wa a : ℝ) : ℝ :=
  1 + (1 - a) * (0.8545 + -1 / R_denominator_inner1 Om w0 wa a +
    -(R_numerator_inner2 Om w0 wa a) / R_denominator_inner2 Om w0 wa a)

/-! ### log10_S, the power-spectrum correction (source lines 108-144) -/

def log10_S (k As Om Ob h ns mnu w0 wa : ℝ) : ℝ :=
  let part1 := -0.2841 * h
  let part2 := -0.1679 * w0
  let part3 := -0.0534 * mnu / Real.sqrt (0.0024 + k ^ 2)
  let part4 := -(0.1183 * h) / (0.3971 * h + mnu)
  let part5 := 0.0985 * mnu / (h * Real.sqrt (0.0009 + (Om * 0.1258 + k) ^ 2))
  let part6 :=
    (0.2476 * Ob - 0.1841 * w0 - 0.0316 * wa +
        (0.1385 * w0 + 0.2825) / (0.8098 * wa + w0)) /
      Real.sqrt (0.019 + (Om + 0.1376 * Real.log (-0.3733 * w0)) ^ 2)
  (part1 + part2 + part3 + part4 + part5 + part6) / 10

/-! ### get_approximate_D, the growth factor (source lines 148-214)

Source locals become the `D_*` helpers.  The source reassigns
`mnu = mnu + 1e-10` at the top of the body, so every helper below is
applied to the shifted value `mnu + 1e-10` inside `get_approximate_D`;
in particular the species-count conditional `Nnu = (3 if mnu != 0.0
else 0)` at source line 205 also reads the shifted value. -/

def theta2p7 : ℝ := 2.7255 / 2.7

def D_zeq (Om h : ℝ) : ℝ := 2.5e4 * Om * h ^ 2 / theta2p7 ^ 4

def D_Omega0 (Om a : ℝ) : ℝ := Om * a ^ (-3 : ℤ)

def D_OL0 (Om w0 wa a : ℝ) : ℝ :=
  (1 - Om) * a ^ (-3 * (1 + w0 + wa)) * Real.exp (-3 * wa * (1 - a))

def D_g (Om w0 wa a : ℝ) : ℝ := Real.sqrt (D_Omega0 Om a + D_OL0 Om w0 wa a)

def D_Omega (Om w0 wa a : ℝ) : ℝ := D_Omega0 Om a / D_g Om w0 wa a ^ 2

def D_OL (Om w0 wa a : ℝ) : ℝ := D_OL0 Om w0 wa a / D_g Om w0 wa a ^ 2

def D_D1 (Om h w0 wa a : ℝ) : ℝ :=
  (1 + D_zeq Om h) / (1 + (1 / a - 1)) * 5 * D_Omega Om w0 wa a / 2 /
    (D_Omega Om w0 wa a ^ ((4 : ℝ) / 7) - D_OL Om w0 wa a +
      (1 + D_Omega Om w0 wa a / 2) * (1 + D_OL Om w0 wa a / 70))

def D_Onu (mnu h : ℝ) : ℝ := mnu / 93.14 / h ^ 2

def D_fnu (Om mnu h : ℝ) : ℝ := D_Onu mnu h / Om

def D_fcb (Om Ob mnu h : ℝ) : ℝ := (Om - Ob - D_Onu mnu h) / Om + Ob / Om

def D_pcb (Om Ob mnu h : ℝ) : ℝ :=
  1 / 4 * (5 - Real.sqrt (1 + 24 * D_fcb Om Ob mnu h))

def D_q (k Om h : ℝ) : ℝ := k * h * theta2p7 ^ 2 / (Om * h ^ 2)

def D_yfs (k Om mnu h Nnu : ℝ) : ℝ :=
  17.2 * D_fnu Om mnu h * (1 + 0.488 / D_fnu Om mnu h ^ ((7 : ℝ) / 6)) *
    (Nnu * D_q k Om h / D_fnu Om mnu h) ^ 2

def D_Dcbnu (Om Ob h w0 wa a mnu yfs : ℝ) : ℝ :=
  (D_fcb Om Ob mnu h ^ ((0.7 : ℝ) / D_pcb Om Ob mnu h) +
      (D_D1 Om h w0 wa a / (1 + yfs)) ^ (0.7 : ℝ)) ^ (D_pcb Om Ob mnu h / 0.7) *
    D_D1 Om h w0 wa a ^ (1 - D_pcb Om Ob mnu h)

def get_approximate_D (k As Om Ob h ns mnu w0 wa a : ℝ) : ℝ :=
  D_Dcbnu Om Ob h w0 wa a (mnu + 1e-10)
      (D_yfs k Om (mnu + 1e-10) h (if mnu + 1e-10 ≠ 0 then (3 : ℝ) else 0)) /
    (1 + D_zeq Om h)

/-- Variant of `get_approximate_D` in which the species count `Nnu` is
replaced by the constant 3 (the value the source conditional produces for
every nonnegative `mnu`). -/
def get_approximate_D_Nnu3 (k As Om Ob h ns mnu w0 wa a : ℝ) : ℝ :=
  D_Dcbnu Om Ob h w0 wa a (mnu + 1e-10) (D_yfs k Om (mnu + 1e-10) h 3) /
    (1 + D_zeq Om h)

/-- Modelled from the spec: the growth-factor formula of
`get_approximate_D` with the free-streaming suppression term `yfs` equal
to 0, the value the spec asserts is obtained when `mnu = 0.0` exactly. -/
def get_approximate_D_yfs0 (k As Om Ob h ns mnu w0 wa a : ℝ) : ℝ :=
  D_Dcbnu Om Ob h w0 wa a (mnu + 1e-10) 0 / (1 + D_zeq Om h)

/-! ### get_eisensteinhu (source lines 217-260) -/

def eh_s (Om Ob h : ℝ) : ℝ :=
  44.5 * Real.log (9.83 / (Om * h ^ 2)) /
    Real.sqrt (1.0 + 10.0 * (Ob * h ^ 2) ^ (0.75 : ℝ))

def eh_alphaGamma (Om Ob h : ℝ) : ℝ :=
  1.0 - 0.328 * Real.log (431.0 * (Om * h ^ 2)) * (Ob / Om) +
    0.38 * Real.log (22.3 * (Om * h ^ 2)) * (Ob / Om) ^ 2

def eh_Gamma (k Om Ob h : ℝ) : ℝ :=
  Om * h * (eh_alphaGamma Om Ob h +
    (1.0 - eh_alphaGamma Om Ob h) / (1.0 + (0.43 * k * h * eh_s Om Ob h) ^ 4))

def eh_q (k Om Ob h : ℝ) : ℝ := k * theta2p7 ^ 2 / eh_Gamma k Om Ob h

def tk_eh (k Om Ob h : ℝ) : ℝ :=
  let q := eh_q k Om Ob h
  let C0 := 14.2 + 731.0 / (1.0 + 62.5 * q)
  let L0 := Real.log (2.0 * Real.exp 1 + 1.8 * q)
  L0 / (L0 + C0 * q ^ 2)

def kpivot : ℝ := 0.05

def get_eisensteinhu (k As Om Ob h ns mnu w0 wa : ℝ) : ℝ :=
  2 * Real.pi ^ 2 / k ^ 3 * (As * 1e-9) * (k * h / kpivot) ^ (ns - 1) *
    (2 * k ^ 2 * 2998 ^ 2 / 5 / Om) ^ 2 * tk_eh k Om Ob h ^ 2

/-! ### logF_fiducial (source lines 262-302) -/

def logF_fiducial (k As Om Ob h ns mnu w0 wa : ℝ) : ℝ :=
  let line1 := 0.05448654 * h - 0.00379
  let line2 :=
    (Ob * 0.0396711937097927 / Real.sqrt (h ^ 2 + 0.127733431568858)) ^ (1.35 * Om) *
      ((4.053543862744234 * k - Ob) /
          Real.sqrt (0.0008084539054750851 + (Ob - 1.8852431049189666 * k) ^ 2) *
          0.11418372931475675 * (3.798 * k) ^ (-(14.909) * k) *
          Real.cos (Om * 5.56 -
            15.8274343004709 * k / Real.sqrt (0.0230755621512691 + Ob ^ 2)) -
        0.86531976 *
          (0.8425442636372944 * k / Real.sqrt (1 + 4.553956000000005 * k ^ 2) - Om) *
          Real.cos (5.116999999999995 * h / Real.sqrt (1 + 70.0234239999998 * k ^ 2)))
  let line3 :=
    0.01107 * (5.35 * Om + 6.421 * h - Real.log (134.309 * k) +
        (5.324 * k) ^ (-(21.532) * k)) *
      Real.cos (4.741999999999985 / Real.sqrt (1 + 16.68722499999999 * k ^ 2))
  let line4 :=
    (3.078 * k) ^ (-(16.987) * k) *
      (0.05881491 * k - 0.0006864690561825617 * Real.log (195.498 * k) /
        Real.sqrt (0.0038454457516892 + (Om - 0.276696018851544 * h) ^ 2)) *
      Real.cos (Om * 7.385 - 12.3960625361899 * k / Real.sqrt (Ob ^ 2 + 0.0134114370723638))
  line1 + line2 + line3 + line4

/-! ### plin_plus_emulated (source lines 304-337) -/

def plin_plus_emulated (k As Om Ob h ns mnu w0 wa : ℝ) (a : ℝ := 1) : ℝ :=
  let eh := get_eisensteinhu k As Om Ob h ns mnu w0 wa
  let D := get_approximate_D k As Om Ob h ns mnu w0 wa a
  let logF_value := logF_fiducial k As Om Ob h ns mnu w0 wa
  let F_value := Real.exp logF_value
  let R_value := R As Om Ob h ns mnu w0 wa a
  let log10_S_value := log10_S k As Om Ob h ns mnu w0 wa
  let S_value := (10 : ℝ) ^ log10_S_value
  eh * D ^ 2 * F_value * R_value * S_value

/-! ### Array (list) versions of the k-elementwise functions -/

def get_eisensteinhuL (k : List ℝ) (As Om Ob h ns mnu w0 wa : ℝ) : List ℝ :=
  k.map (fun ki => get_eisensteinhu ki As Om Ob h ns mnu w0 wa)

def get_approximate_DL (k : List ℝ) (As Om Ob h ns mnu w0 wa a : ℝ) : List ℝ :=
  k.map (fun ki => get_approximate_D ki As Om Ob h ns mnu w0 wa a)

def log10_SL (k : List ℝ) (As Om Ob h ns mnu w0 wa : ℝ) : List ℝ :=
  k.map (fun ki => log10_S ki As Om Ob h ns mnu w0 wa)

def logF_fiducialL (k : List ℝ) (As Om Ob h ns mnu w0 wa : ℝ) : List ℝ :=
  k.map (fun ki => logF_fiducial ki As Om Ob h ns mnu w0 wa)

def plin_plus_emulatedL (k : List ℝ) (As Om Ob h ns mnu w0 wa : ℝ) (a : ℝ := 1) :
    List ℝ :=
  k.map (fun ki => plin_plus_emulated ki As Om Ob h ns mnu w0 wa a)

/-! ### IEEE-style value domain for the NaN-propagation behaviour

`FVal` models a double-precision value as finite (with its exact real
value), +infinity, -infinity, or NaN; the operations follow the IEEE 754
special-value rules that numpy scalar arithmetic implements. -/

inductive FVal where
  | fin : ℝ → FVal
  | pinf : FVal
  | ninf : FVal
  | nan : FVal

def FVal.add : FVal → FVal → FVal
  | nan, _ => nan
  | _, nan => nan
  | fin x, fin y => fin (x + y)
  | fin _, pinf => pinf
  | fin _, ninf => ninf
  | pinf, fin _ => pinf
  | ninf, fin _ => ninf
  | pinf, pinf => pinf
  | ninf, ninf => ninf
  | pinf, ninf => nan
  | ninf, pinf => nan

def FVal.neg : FVal → FVal
  | nan => nan
  | pinf => ninf
  | ninf => pinf
  | fin x => fin (-x)

def FVal.sub (x y : FVal) : FVal := FVal.add x (FVal.neg y)

def FVal.mul : FVal → FVal → FVal
  | nan, _ => nan
  | _, nan => nan
  | fin x, fin y => fin (x * y)
  | fin x, pinf => if 0 < x then pinf else if x < 0 then ninf else nan
  | fin x, ninf => if 0 < x then ninf else if x < 0 then pinf else nan
  | pinf, fin y => if 0 < y then pinf else if y < 0 then ninf else nan
  | ninf, fin y => if 0 < y then ninf else if y < 0 then pinf else nan
  | pinf, pinf => pinf
  | pinf, ninf => ninf
  | ninf, pinf => ninf
  | ninf, ninf => pinf

def FVal.log : FVal → FVal
  | nan => nan
  | pinf => pinf
  | ninf => nan
  | fin x => if 0 < x then fin (Real.log x) else if x = 0 then ninf else nan

def FVal.sqrt : FVal → FVal
  | nan => nan
  | pinf => pinf
  | ninf => nan
  | fin x => if 0 ≤ x then fin (Real.sqrt x) else nan

/-- `Astosigma8` evaluated with IEEE special-value propagation: finite
real inputs, every numpy operation that can leave the finite range
(`np.log`, `np.sqrt`, the additions and multiplications combining them)
performed in `FVal`. -/
def Astosigma8FV (As Om Ob h ns mnu w0 wa : ℝ) : FVal :=
  let term1 := FVal.mul (.fin 0.0187)
    (FVal.add (.fin (-Ob * 2.4891 + Om * 12.9495))
      (FVal.log (FVal.add (.fin (-0.7527 * w0))
        (FVal.log (.fin (-2.3685 * w0 - 1.5062 * wa))))))
  let term2 := FVal.sub (.fin (Om * 1.3057 + 0.0885 * mnu + 0.1471 * ns))
    (FVal.log (.fin (Om * 3.4982 - 0.006 * wa)))
  let term3 := FVal.fin (Ob * 19.2779 - Om * 11.1463 - ns)
  let term4 := FVal.fin (-Om * 1.5433 - 7.0578 * h + 2.0564 * mnu + ns)
  let result := FVal.mul (FVal.mul (FVal.mul term1 term2) term3) term4
  FVal.mul result (FVal.sqrt (.fin As))

end

/-! ## Theorems -/

noncomputable section

/-- Claim C1: for every input list `k` and scalars `As, Om, Ob, h, ns, mnu,
w0, wa, a`, `plin_plus_emulated` returns elementwise
`get_eisensteinhu * get_approximate_D ^ 2 * exp (logF_fiducial) * R *
10 ^ log10_S`, and the scale factor `a` defaults to 1 when omitted. -/
theorem plin_plus_emulated_formula (k : List ℝ) (As Om Ob h ns mnu w0 wa a : ℝ) :
    plin_plus_emulatedL k As Om Ob h ns mnu w0 wa a =
      k.map (fun ki =>
        get_eisensteinhu ki As Om Ob h ns mnu w0 wa *
          get_approximate_D ki As Om Ob h ns mnu w0 wa a ^ 2 *
          Real.exp (logF_fiducial ki As Om Ob h ns mnu w0 wa) *
          R As Om Ob h ns mnu w0 wa a *
          (10 : ℝ) ^ log10_S ki As Om Ob h ns mnu w0 wa) ∧
    plin_plus_emulatedL k As Om Ob h ns mnu w0 wa =
      plin_plus_emulatedL k As Om Ob h ns mnu w0 wa 1 :=
  ⟨rfl, rfl⟩

/-- Claim C6: for every input list `k` (all other parameters scalar), each of
`get_eisensteinhu`, `get_approximate_D`, `log10_S`, `logF_fiducial` and
`plin_plus_emulated` returns a list of the same length as `k`. -/
theorem shape_preservation (k : List ℝ) (As Om Ob h ns mnu w0 wa a : ℝ) :
    (get_eisensteinhuL k As Om Ob h ns mnu w0 wa).length = k.length ∧
    (get_approximate_DL k As Om Ob h ns mnu w0 wa a).length = k.length ∧
    (log10_SL k As Om Ob h ns mnu w0 wa).length = k.length ∧
    (logF_fiducialL k As Om Ob h ns mnu w0 wa).length = k.length ∧
    (plin_plus_emulatedL k As Om Ob h ns mnu w0 wa a).length = k.length := by
  refine ⟨?_, ?_, ?_, ?_, ?_⟩ <;>
    simp [get_eisensteinhuL, get_approximate_DL, log10_SL, logF_fiducialL,
      plin_plus_emulatedL]

/-- Claim C9: the output of `R` does not depend on its `As`, `Ob`, `h`, `ns`
or `mnu` arguments: any two argument tuples agreeing on `Om`, `w0`, `wa`
and `a` give equal results. -/
theorem R_independent_of_unused (As As2 Om Ob Ob2 h h2 ns ns2 mnu mnu2 w0 wa a : ℝ) :
    R As Om Ob h ns mnu w0 wa a = R As2 Om Ob2 h2 ns2 mnu2 w0 wa a := rfl

/-- Claim C10: the output of `get_eisensteinhu` does not depend on its `mnu`,
`w0` or `wa` arguments: any two argument tuples agreeing on `k`, `As`,
`Om`, `Ob`, `h` and `ns` give equal results. -/
theorem get_eisensteinhu_independent_of_unused
    (k As Om Ob h ns mnu mnu2 w0 w02 wa wa2 : ℝ) :
    get_eisensteinhu k As Om Ob h ns mnu w0 wa =
      get_eisensteinhu k As Om Ob h ns mnu2 w02 wa2 := rfl

/-- Claim C7: for every `k > 0` and `Om > 0`, `get_eisensteinhu` converts the
no-wiggle transfer function `tk_eh` to a power spectrum as
`2 * pi ^ 2 / k ^ 3 * (As * 1e-9) * (k * h / 0.05) ^ (ns - 1) *
(2 * k ^ 2 * 2998 ^ 2 / (5 * Om)) ^ 2 * tk_eh ^ 2`, with pivot 0.05,
amplitude `As * 1e-9`, tilt `ns - 1` and the speed-of-light constant baked
in as 2998. -/
theorem get_eisensteinhu_formula (k As Om Ob h ns mnu w0 wa : ℝ)
    (hk : 0 < k) (hOm : 0 < Om) :
    get_eisensteinhu k As Om Ob h ns mnu w0 wa =
      2 * Real.pi ^ 2 / k ^ 3 * (As * 1e-9) * (k * h / 0.05) ^ (ns - 1) *
        (2 * k ^ 2 * 2998 ^ 2 / (5 * Om)) ^ 2 * tk_eh k Om Ob h ^ 2 := by
  unfold get_eisensteinhu kpivot
  rw [div_div]

theorem get_eisensteinhu_formula_witness :
    get_eisensteinhu 1 2.1 0.3 0.05 0.7 0.96 0.06 (-1) 0 =
      2 * Real.pi ^ 2 / 1 ^ 3 * (2.1 * 1e-9) * (1 * 0.7 / 0.05) ^ ((0.96 : ℝ) - 1) *
        (2 * 1 ^ 2 * 2998 ^ 2 / (5 * 0.3)) ^ 2 * tk_eh 1 0.3 0.05 0.7 ^ 2 :=
  get_eisensteinhu_formula 1 2.1 0.3 0.05 0.7 0.96 0.06 (-1) 0 one_pos (by norm_num)

/-- Claim C3: for every parameter tuple for which the correction terms inside
`R` are finite (both logarithm arguments positive, both denominators
nonzero), `R` at scale factor `a = 1` equals exactly 1, because the
`(1 - a)` factor multiplying the correction terms is zero. -/
theorem R_at_scale_factor_one (As Om Ob h ns mnu w0 wa : ℝ)
    (hlog1 : 0 < -4.6669 * w0 - 0.4136 * wa)
    (hlog2 : 0 < -0.4553 * w0 - 0.0799 * wa)
    (hden1 : R_denominator_inner1 Om w0 wa 1 ≠ 0)
    (hden2 : R_denominator_inner2 Om w0 wa 1 ≠ 0) :
    R As Om Ob h ns mnu w0 wa 1 = 1 := by
  unfold R
  ring

theorem R_at_scale_factor_one_witness :
    R_denominator_inner1 0.3 (-1) 0 1 ≠ 0 ∧ R_denominator_inner2 0.3 (-1) 0 1 ≠ 0 ∧
    R 2.1 0.3 0.05 0.7 0.96 0.06 (-1) 0 1 = 1 := by
  have hpos : (0 : ℝ) < -4.6669 * (-1) - 0.4136 * 0 := by norm_num
  have hlog_lt : Real.log (-4.6669 * (-1) - 0.4136 * 0) <
      -4.6669 * (-1) - 0.4136 * 0 - 1 :=
    Real.log_lt_sub_one_of_pos hpos (by norm_num)
  have hlog_pos : 0 < Real.log (-4.6669 * (-1) - 0.4136 * 0) :=
    Real.log_pos (by norm_num)
  have hden1 : R_denominator_inner1 0.3 (-1) 0 1 ≠ 0 := by
    unfold R_denominator_inner1
    apply ne_of_gt
    nlinarith [hlog_lt, hlog_pos]
  have hden2 : R_denominator_inner2 0.3 (-1) 0 1 ≠ 0 := by
    unfold R_denominator_inner2
    norm_num
  exact ⟨hden1, hden2,
    R_at_scale_factor_one 2.1 0.3 0.05 0.7 0.96 0.06 (-1) 0 (by norm_num)
      (by norm_num) hden1 hden2⟩

theorem one_sub_inv_lt_log {x : ℝ} (hx : 1 < x) : 1 - x⁻¹ < Real.log x := by
  have h0 : 0 < x := lt_trans one_pos hx
  have hne : x⁻¹ ≠ 1 := by
    rw [Ne, inv_eq_one]
    exact ne_of_gt hx
  have h1 : Real.log x⁻¹ < x⁻¹ - 1 :=
    Real.log_lt_sub_one_of_pos (inv_pos.mpr h0) hne
  rw [Real.log_inv] at h1
  linarith

/-- Claim C2: for every `As > 0` and parameters with both logarithm arguments
of the shared fitting formula positive and the intermediate product
`term1 * term2 * term3 * term4` nonzero,
`sigma8toAs (Astosigma8 As ...) ...` equals `As` exactly in real
arithmetic (the formula is the same, rearranged); exact equality in the
reals subsumes the 1e-9 relative floating-point tolerance of the claim. -/
theorem sigma8_roundtrip (As Om Ob h ns mnu w0 wa : ℝ) (hAs : 0 < As)
    (hlog1 : 0 < -2.3685 * w0 - 1.5062 * wa)
    (hlog2 : 0 < Om * 3.4982 - 0.006 * wa)
    (hres : sigma8_result Om Ob h ns mnu w0 wa ≠ 0) :
    sigma8toAs (Astosigma8 As Om Ob h ns mnu w0 wa) Om Ob h ns mnu w0 wa = As := by
  unfold sigma8toAs Astosigma8
  rw [mul_comm (sigma8_result Om Ob h ns mnu w0 wa) (Real.sqrt As),
    mul_div_assoc, div_self hres, mul_one, Real.sq_sqrt hAs.le]

theorem sigma8_roundtrip_witness :
    (0 : ℝ) < 4 ∧ sigma8_result 0.3 0.05 0.7 1 0 (-1) 0 ≠ 0 ∧
    sigma8toAs (Astosigma8 4 0.3 0.05 0.7 1 0 (-1) 0) 0.3 0.05 0.7 1 0 (-1) 0 = 4 := by
  have hinner_lo : (0.57 : ℝ) < Real.log (-2.3685 * (-1) - 1.5062 * 0) := by
    have h1 := one_sub_inv_lt_log (by norm_num : (1 : ℝ) < -2.3685 * (-1) - 1.5062 * 0)
    have h2 : (0.57 : ℝ) < 1 - (-2.3685 * (-1) - 1.5062 * (0 : ℝ))⁻¹ := by norm_num
    linarith
  have houter_pos :
      0 < Real.log (-0.7527 * (-1) + Real.log (-2.3685 * (-1) - 1.5062 * 0)) :=
    Real.log_pos (by linarith)
  have hterm1 : 0 < sigma8_term1 0.3 0.05 (-1) 0 := by
    unfold sigma8_term1
    nlinarith [houter_pos]
  have hterm2 : 0 < sigma8_term2 0.3 1 0 0 := by
    unfold sigma8_term2
    have h1 : Real.log ((0.3 : ℝ) * 3.4982 - 0.006 * 0) <
        (0.3 : ℝ) * 3.4982 - 0.006 * 0 - 1 :=
      Real.log_lt_sub_one_of_pos (by norm_num) (by norm_num)
    nlinarith [h1]
  have hterm3 : sigma8_term3 0.3 0.05 1 < 0 := by
    unfold sigma8_term3
    norm_num
  have hterm4 : sigma8_term4 0.3 0.7 1 0 < 0 := by
    unfold sigma8_term4
    norm_num
  have hres : sigma8_result 0.3 0.05 0.7 1 0 (-1) 0 ≠ 0 := by
    unfold sigma8_result
    apply ne_of_gt
    rw [mul_assoc]
    exact mul_pos (mul_pos hterm1 hterm2) (mul_pos_of_neg_of_neg hterm3 hterm4)
  exact ⟨by norm_num, hres,
    sigma8_roundtrip 4 0.3 0.05 0.7 1 0 (-1) 0 (by norm_num) (by norm_num)
      (by norm_num) hres⟩

/-- Claim C5: calling `Astosigma8` with parameters making
`-2.3685 * w0 - 1.5062 * wa ≤ 0` (for example `w0 = 0`, `wa = 0`) returns
NaN rather than raising an exception: in the IEEE-valued embedding the
function is total and the out-of-domain logarithm propagates `FVal.nan`
through the remaining arithmetic to the returned result. -/
theorem FVal.add_fin_nan (x : ℝ) : FVal.add (.fin x) .nan = .nan := rfl

theorem FVal.add_fin_ninf (x : ℝ) : FVal.add (.fin x) .ninf = .ninf := rfl

theorem FVal.log_nan : FVal.log .nan = .nan := rfl

theorem FVal.log_ninf : FVal.log .ninf = .nan := rfl

theorem FVal.mul_fin_nan (x : ℝ) : FVal.mul (.fin x) .nan = .nan := rfl

theorem FVal.mul_nan (v : FVal) : FVal.mul .nan v = .nan := by cases v <;> rfl

theorem Astosigma8_nan_propagation (As Om Ob h ns mnu w0 wa : ℝ)
    (hw : -2.3685 * w0 - 1.5062 * wa ≤ 0) :
    Astosigma8FV As Om Ob h ns mnu w0 wa = FVal.nan := by
  rcases eq_or_lt_of_le hw with heq | hlt
  · have e1 : FVal.log (.fin (-2.3685 * w0 - 1.5062 * wa)) = .ninf := by
      simp only [FVal.log]
      rw [if_neg (by rw [heq]; exact lt_irrefl 0), if_pos heq]
    simp only [Astosigma8FV, e1, FVal.add_fin_ninf, FVal.log_ninf, FVal.add_fin_nan,
      FVal.mul_fin_nan, FVal.mul_nan]
  · have e1 : FVal.log (.fin (-2.3685 * w0 - 1.5062 * wa)) = .nan := by
      simp only [FVal.log]
      rw [if_neg (not_lt.mpr hlt.le), if_neg (ne_of_lt hlt)]
    simp only [Astosigma8FV, e1, FVal.add_fin_nan, FVal.log_nan, FVal.mul_fin_nan,
      FVal.mul_nan]

theorem Astosigma8_nan_propagation_witness :
    -2.3685 * (0 : ℝ) - 1.5062 * 0 ≤ 0 ∧
    Astosigma8FV 2.1 0.3 0.05 0.7 0.96 0.06 0 0 = FVal.nan :=
  ⟨by norm_num, Astosigma8_nan_propagation 2.1 0.3 0.05 0.7 0.96 0.06 0 0 (by norm_num)⟩

/-- Claim C8: because `get_approximate_D` shifts `mnu` by `1e-10` before the
species-count conditional is evaluated, the conditional sees the shifted
value, so for every `mnu ≥ 0` it yields `Nnu = 3` and the output equals
the variant of the function with `Nnu` replaced by the constant 3. -/
theorem get_approximate_D_eq_Nnu3 (k As Om Ob h ns mnu w0 wa a : ℝ)
    (hmnu : 0 ≤ mnu) :
    get_approximate_D k As Om Ob h ns mnu w0 wa a =
      get_approximate_D_Nnu3 k As Om Ob h ns mnu w0 wa a := by
  have heps : (0 : ℝ) < 1e-10 := by norm_num
  have h0 : mnu + 1e-10 ≠ 0 := ne_of_gt (by linarith)
  unfold get_approximate_D get_approximate_D_Nnu3
  rw [if_pos h0]

theorem get_approximate_D_eq_Nnu3_witness :
    (0 : ℝ) ≤ 0 ∧
    get_approximate_D 1 2.1 0.3 0.05 0.7 0.96 0 (-1) 0 0.5 =
      get_approximate_D_Nnu3 1 2.1 0.3 0.05 0.7 0.96 0 (-1) 0 0.5 :=
  ⟨le_refl 0,
    get_approximate_D_eq_Nnu3 1 2.1 0.3 0.05 0.7 0.96 0 (-1) 0 0.5 (le_refl 0)⟩

/-- Claim C4 (amended): with `mnu = 0.0` exactly, the species count inside
`get_approximate_D` is determined from the epsilon-shifted value
`mnu + 1e-10`, which is nonzero, so `Nnu = 3` (not 0) and the returned
value equals the growth-factor formula with `Nnu` set to 3 (its
free-streaming suppression term `yfs` is nonzero, not zero). -/
theorem get_approximate_D_mnu_zero (k As Om Ob h ns w0 wa a : ℝ) :
    get_approximate_D k As Om Ob h ns 0 w0 wa a =
      get_approximate_D_Nnu3 k As Om Ob h ns 0 w0 wa a := by
  unfold get_approximate_D get_approximate_D_Nnu3
  rw [if_pos (by norm_num : (0 : ℝ) + 1e-10 ≠ 0)]

theorem D_Dcbnu_lt_of_yfs_pos (Om Ob h w0 wa a mnu yfs : ℝ)
    (hD1 : 0 < D_D1 Om h w0 wa a) (hyfs : 0 < yfs)
    (hp : 0 < D_pcb Om Ob mnu h) (hfcb : 0 ≤ D_fcb Om Ob mnu h) :
    D_Dcbnu Om Ob h w0 wa a mnu yfs < D_Dcbnu Om Ob h w0 wa a mnu 0 := by
  unfold D_Dcbnu
  have hAnn : 0 ≤ D_fcb Om Ob mnu h ^ ((0.7 : ℝ) / D_pcb Om Ob mnu h) :=
    Real.rpow_nonneg hfcb _
  have hdiv : D_D1 Om h w0 wa a / (1 + yfs) < D_D1 Om h w0 wa a / (1 + 0) :=
    div_lt_div_of_pos_left hD1 (by norm_num) (by linarith)
  have hdnn : 0 ≤ D_D1 Om h w0 wa a / (1 + yfs) :=
    div_nonneg hD1.le (by linarith)
  have hstep : (D_D1 Om h w0 wa a / (1 + yfs)) ^ (0.7 : ℝ) <
      (D_D1 Om h w0 wa a / (1 + 0)) ^ (0.7 : ℝ) :=
    Real.rpow_lt_rpow hdnn hdiv (by norm_num)
  have houter :
      (D_fcb Om Ob mnu h ^ ((0.7 : ℝ) / D_pcb Om Ob mnu h) +
          (D_D1 Om h w0 wa a / (1 + yfs)) ^ (0.7 : ℝ)) ^ (D_pcb Om Ob mnu h / 0.7) <
        (D_fcb Om Ob mnu h ^ ((0.7 : ℝ) / D_pcb Om Ob mnu h) +
          (D_D1 Om h w0 wa a / (1 + 0)) ^ (0.7 : ℝ)) ^ (D_pcb Om Ob mnu h / 0.7) :=
    Real.rpow_lt_rpow (by positivity) (by linarith) (by positivity)
  exact mul_lt_mul_of_pos_right houter (Real.rpow_pos_of_pos hD1 _)

/-- Claim C4 (counterexample): at the concrete input `k = 1`, `As = 2.1`,
`Om = 0.3`, `Ob = 0.05`, `h = 0.7`, `ns = 0.96`, `mnu = 0`, `w0 = -1`,
`wa = 0`, `a = 1`, the value of `get_approximate_D` is NOT the value of
the growth-factor formula with the free-streaming term `yfs` equal to 0
(it is strictly smaller, because the species count is computed from the
shifted `mnu` and equals 3, making `yfs` positive). -/
theorem get_approximate_D_mnu_zero_ne_yfs0 :
    get_approximate_D 1 2.1 0.3 0.05 0.7 0.96 0 (-1) 0 1 ≠
      get_approximate_D_yfs0 1 2.1 0.3 0.05 0.7 0.96 0 (-1) 0 1 := by
  have hOm0 : D_Omega0 0.3 1 = 0.3 := by
    unfold D_Omega0
    norm_num
  have hOL0 : D_OL0 0.3 (-1) 0 1 = 0.7 := by
    unfold D_OL0
    norm_num [Real.one_rpow, Real.exp_zero]
  have hg : D_g 0.3 (-1) 0 1 = 1 := by
    unfold D_g
    rw [hOm0, hOL0]
    norm_num [Real.sqrt_one]
  have hOmega : D_Omega 0.3 (-1) 0 1 = 0.3 := by
    unfold D_Omega
    rw [hOm0, hg]
    norm_num
  have hOL : D_OL 0.3 (-1) 0 1 = 0.7 := by
    unfold D_OL
    rw [hOL0, hg]
    norm_num
  have hzeq : 0 < D_zeq 0.3 0.7 := by
    unfold D_zeq theta2p7
    norm_num
  have hrp : 0 < (0.3 : ℝ) ^ ((4 : ℝ) / 7) :=
    Real.rpow_pos_of_pos (by norm_num) _
  have hD1 : 0 < D_D1 0.3 0.7 (-1) 0 1 := by
    unfold D_D1
    rw [hOmega, hOL]
    apply div_pos
    · have h1 : (0 : ℝ) < 1 + D_zeq 0.3 0.7 := by linarith
      have h2 : (1 : ℝ) + (1 / 1 - 1) = 1 := by norm_num
      rw [h2]
      positivity
    · nlinarith [hrp]
  have hfnu : 0 < D_fnu 0.3 (0 + 1e-10) 0.7 := by
    unfold D_fnu D_Onu
    norm_num
  have hq : 0 < D_q 1 0.3 0.7 := by
    unfold D_q theta2p7
    norm_num
  have hyfs : 0 < D_yfs 1 0.3 (0 + 1e-10) 0.7 3 := by
    unfold D_yfs
    have h1 : 0 < D_fnu 0.3 (0 + 1e-10) 0.7 ^ ((7 : ℝ) / 6) :=
      Real.rpow_pos_of_pos hfnu _
    have h2 : 0 < 3 * D_q 1 0.3 0.7 / D_fnu 0.3 (0 + 1e-10) 0.7 :=
      div_pos (by linarith) hfnu
    have h3 : 0 < 1 + 0.488 / D_fnu 0.3 (0 + 1e-10) 0.7 ^ ((7 : ℝ) / 6) := by
      have := div_pos (by norm_num : (0 : ℝ) < 0.488) h1
      linarith
    have h4 : 0 < (3 * D_q 1 0.3 0.7 / D_fnu 0.3 (0 + 1e-10) 0.7) ^ 2 :=
      pow_pos h2 2
    have h5 : 0 < 17.2 * D_fnu 0.3 (0 + 1e-10) 0.7 := by linarith
    exact mul_pos (mul_pos h5 h3) h4
  have hfcb_lt : D_fcb 0.3 0.05 (0 + 1e-10) 0.7 < 1 := by
    unfold D_fcb D_Onu
    norm_num
  have hfcb_nn : 0 ≤ D_fcb 0.3 0.05 (0 + 1e-10) 0.7 := by
    unfold D_fcb D_Onu
    norm_num
  have hpcb : 0 < D_pcb 0.3 0.05 (0 + 1e-10) 0.7 := by
    unfold D_pcb
    have hs : Real.sqrt (1 + 24 * D_fcb 0.3 0.05 (0 + 1e-10) 0.7) < 5 := by
      rw [Real.sqrt_lt' (by norm_num)]
      nlinarith [hfcb_lt]
    linarith
  have hlt := D_Dcbnu_lt_of_yfs_pos 0.3 0.05 0.7 (-1) 0 1 (0 + 1e-10)
    (D_yfs 1 0.3 (0 + 1e-10) 0.7 3) hD1 hyfs hpcb hfcb_nn
  unfold get_approximate_D get_approximate_D_yfs0
  rw [if_pos (by norm_num : (0 : ℝ) + 1e-10 ≠ 0)]
  exact ne_of_lt ((div_lt_div_iff_of_pos_right (by linarith)).mpr hlt)

end

end SymbolicPofk
